import Mathlib

/-!
Verification of the grid-world core of the mongoose simulation
(`src/main.rs`): the `Arena` occupancy grid with its derived adjacency
multigraph, bounded simple-path planning, target selection, and
segmented-body movement.

Modelling conventions:
* Rust `i32` coordinates become `Int` (no arithmetic here can overflow a
  32-bit range: all reachable coordinate arithmetic stays within `[-2, 21]`).
* The petgraph `Graph<(), (), Undirected>` is an edge multigraph; we keep
  the edge list in insertion order (petgraph pushes new edges at the end of
  its edge vector and allows parallel edges).  Node indices are replaced by
  the cells themselves, which is faithful because `nodes : BiMap` is a
  bijection between in-arena cells and node indices.
* A Rust `panic!` is modelled by returning `none` from an `Option`-valued
  function.
* Entities (`bevy::Entity`) become `Nat` identifiers.
* The thread rng is modelled by passing the drawn values explicitly.
-/

set_option maxRecDepth 100000

namespace Mongoose

def ARENA_HEIGHT : Int := 20
def ARENA_WIDTH : Int := 20

/-- `MAX_PATH_LENGTH` from the source (`usize`), the bound `L` handed to
`all_simple_paths` as its `max_intermediate_nodes` argument. -/
def MAX_PATH_LENGTH : Nat := 8

structure Position where
  x : Int
  y : Int
deriving DecidableEq, Repr

inductive Occupancy where
  | Berry (e : Nat)
  | Mongoose (e : Nat)
  | Rat (e : Nat)
  | Snake (e : Nat)
deriving DecidableEq, Repr

abbrev Cell := Int × Int
abbrev Edge := Cell × Cell

/-- The `Arena` resource: the undirected adjacency multigraph (edge list in
insertion order) together with the occupancy array.  The Rust field `occ`
is an `Array2D<Option<Occupancy>>` indexed only after a bounds check; we
model it as a total function that is only ever written at in-bounds cells. -/
structure Arena where
  graph : List Edge
  occ : Cell → Option Occupancy

/-- The out-of-range test used by every `Arena` method:
`x >= ARENA_WIDTH || x < 0 || y >= ARENA_HEIGHT || y < 0`. -/
def oob (x y : Int) : Prop :=
  ARENA_WIDTH ≤ x ∨ x < 0 ∨ ARENA_HEIGHT ≤ y ∨ y < 0

instance (x y : Int) : Decidable (oob x y) := by
  unfold oob; infer_instance

/-- `Arena::isset`: out-of-range coordinates answer `false`. -/
def Arena.isset (a : Arena) (x y : Int) : Bool :=
  if oob x y then false else (a.occ (x, y)).isSome

/-- Pointwise update of the occupancy array. -/
def updOcc (f : Cell → Option Occupancy) (c : Cell) (v : Option Occupancy) :
    Cell → Option Occupancy :=
  fun d => if d = c then v else f d

/-- `Arena::add_edges_with`: add an edge from `(x, y)` to each in-bounds
grid neighbour that is currently unoccupied, in the source's order
(+x, +y, -x, -y).  petgraph's `add_edge` appends to the edge vector and
permits parallel edges, so this is a plain append. -/
def Arena.add_edges_with (a : Arena) (x y : Int) : Arena :=
  { a with graph := a.graph
      ++ (if x < ARENA_WIDTH - 1 ∧ a.isset (x + 1) y = false
          then [((x, y), (x + 1, y))] else [])
      ++ (if y < ARENA_HEIGHT - 1 ∧ a.isset x (y + 1) = false
          then [((x, y), (x, y + 1))] else [])
      ++ (if 0 < x ∧ a.isset (x - 1) y = false
          then [((x, y), (x - 1, y))] else [])
      ++ (if 0 < y ∧ a.isset x (y - 1) = false
          then [((x, y), (x, y - 1))] else []) }

/-- `Arena::remove_edges_with`: retain exactly the edges not incident to
`(x, y)`. -/
def Arena.remove_edges_with (a : Arena) (x y : Int) : Arena :=
  { a with graph := a.graph.filter (fun e => decide (e.1 ≠ (x, y) ∧ e.2 ≠ (x, y))) }

/-- `Arena::set`.  Out-of-range coordinates are a silent no-op; setting an
in-range cell that is already occupied panics (modelled as `none`). -/
def Arena.set (a : Arena) (x y : Int) (o : Occupancy) : Option Arena :=
  if oob x y then some a
  else if (a.occ (x, y)).isSome then none
  else some (Arena.remove_edges_with { a with occ := updOcc a.occ (x, y) (some o) } x y)

/-- `Arena::unset`.  Out-of-range coordinates return `None` without
touching anything; unsetting an in-range cell that is already free panics
(modelled as `none`). -/
def Arena.unset (a : Arena) (x y : Int) : Option (Option Occupancy × Arena) :=
  if oob x y then some (none, a)
  else
    match a.occ (x, y) with
    | none => none
    | some o =>
        some (some o, Arena.add_edges_with { a with occ := updOcc a.occ (x, y) none } x y)

/-- `Arena::unset_maybe`: the tolerant variant, total. -/
def Arena.unset_maybe (a : Arena) (x y : Int) : Option Occupancy × Arena :=
  if oob x y then (none, a)
  else (a.occ (x, y), Arena.add_edges_with { a with occ := updOcc a.occ (x, y) none } x y)

/-- `Arena::occ` (the query method; the struct field of the same name is
`Arena.occ` here). -/
def Arena.occAt (a : Arena) (x y : Int) : Option Occupancy :=
  if oob x y then none else a.occ (x, y)

/-- `Arena::new`: every cell free, one edge between each pair of grid
neighbours, inserted in the source's loop order. -/
def Arena.new : Arena :=
  { graph :=
      (List.range ARENA_WIDTH.toNat).flatMap fun i =>
        (List.range ARENA_HEIGHT.toNat).flatMap fun j =>
          (if (i : Int) < ARENA_WIDTH - 1
            then [(((i : Int), (j : Int)), ((i : Int) + 1, (j : Int)))] else [])
          ++ (if (j : Int) < ARENA_HEIGHT - 1
            then [(((i : Int), (j : Int)), ((i : Int), (j : Int) + 1))] else [])
    occ := fun _ => none }

/-! ### Grid adjacency, the occupancy/connectivity invariant, reachability -/

@[simp] lemma AW_eq : ARENA_WIDTH = 20 := rfl
@[simp] lemma AH_eq : ARENA_HEIGHT = 20 := rfl
@[simp] lemma AW_toNat : ARENA_WIDTH.toNat = 20 := rfl
@[simp] lemma AH_toNat : ARENA_HEIGHT.toNat = 20 := rfl

/-- The cell is inside the arena `[0, W) x [0, H)`. -/
def inB (c : Cell) : Prop :=
  0 ≤ c.1 ∧ c.1 < ARENA_WIDTH ∧ 0 ≤ c.2 ∧ c.2 < ARENA_HEIGHT

instance (c : Cell) : Decidable (inB c) := by
  unfold inB; infer_instance

/-- Grid adjacency: the two cells differ by one in exactly one coordinate. -/
def adj (u v : Cell) : Prop :=
  (u.2 = v.2 ∧ (v.1 = u.1 + 1 ∨ u.1 = v.1 + 1)) ∨
  (u.1 = v.1 ∧ (v.2 = u.2 + 1 ∨ u.2 = v.2 + 1))

instance (u v : Cell) : Decidable (adj u v) := by
  unfold adj; infer_instance

/-- An edge between the two nodes exists in the (undirected) multigraph. -/
def edgeExists (a : Arena) (u v : Cell) : Prop :=
  (u, v) ∈ a.graph ∨ (v, u) ∈ a.graph

/-- The inductive occupancy/connectivity invariant: every stored edge joins
two grid-adjacent in-arena unoccupied cells, and conversely every
grid-adjacent pair of in-arena unoccupied cells is joined by an edge. -/
def Inv (a : Arena) : Prop :=
  (∀ e ∈ a.graph, inB e.1 ∧ inB e.2 ∧ adj e.1 e.2 ∧
    a.occ e.1 = none ∧ a.occ e.2 = none) ∧
  (∀ u v : Cell, inB u → inB v → adj u v → a.occ u = none → a.occ v = none →
    edgeExists a u v)

/-- Arena states reachable from `Arena::new` by non-panicking `set`,
`unset` and `unset_maybe` calls. -/
inductive Reachable : Arena → Prop where
  | new : Reachable Arena.new
  | set {a a' : Arena} {x y : Int} {o : Occupancy} :
      Reachable a → Arena.set a x y o = some a' → Reachable a'
  | unset {a a' : Arena} {x y : Int} {r : Option Occupancy} :
      Reachable a → Arena.unset a x y = some (r, a') → Reachable a'
  | unset_maybe {a a' : Arena} {x y : Int} {r : Option Occupancy} :
      Reachable a → Arena.unset_maybe a x y = (r, a') → Reachable a'

lemma mem_if_singleton {α : Type _} {P : Prop} [Decidable P] {a b : α} :
    (a ∈ if P then [b] else []) ↔ P ∧ a = b := by
  split <;> simp_all

lemma not_oob_iff {x y : Int} : ¬ oob x y ↔ inB (x, y) := by
  unfold oob inB; simp; omega

lemma isset_false_iff {a : Arena} {x y : Int} (h : ¬ oob x y) :
    a.isset x y = false ↔ a.occ (x, y) = none := by
  simp only [Arena.isset, if_neg h]
  cases h' : a.occ (x, y) <;> simp [h']

lemma mem_add_edges_with {a : Arena} {x y : Int} {e : Edge} :
    e ∈ (a.add_edges_with x y).graph ↔
      e ∈ a.graph ∨
      (x < ARENA_WIDTH - 1 ∧ a.isset (x + 1) y = false ∧ e = ((x, y), (x + 1, y))) ∨
      (y < ARENA_HEIGHT - 1 ∧ a.isset x (y + 1) = false ∧ e = ((x, y), (x, y + 1))) ∨
      (0 < x ∧ a.isset (x - 1) y = false ∧ e = ((x, y), (x - 1, y))) ∨
      (0 < y ∧ a.isset x (y - 1) = false ∧ e = ((x, y), (x, y - 1))) := by
  simp [Arena.add_edges_with, List.mem_append, mem_if_singleton, and_assoc]

lemma updOcc_ne {f : Cell → Option Occupancy} {c d : Cell} {v : Option Occupancy}
    (h : d ≠ c) : updOcc f c v d = f d := by
  simp [updOcc, h]

lemma updOcc_self {f : Cell → Option Occupancy} {c : Cell} {v : Option Occupancy} :
    updOcc f c v c = v := by
  simp [updOcc]

lemma new_graph_elim {e : Edge} (h : e ∈ Arena.new.graph) :
    inB e.1 ∧ inB e.2 ∧ adj e.1 e.2 := by
  simp only [Arena.new, List.mem_flatMap, List.mem_range, List.mem_append,
    mem_if_singleton, AW_toNat, AH_toNat, AW_eq, AH_eq] at h
  obtain ⟨i, hi, j, hj, ⟨hlt, rfl⟩ | ⟨hlt, rfl⟩⟩ := h <;>
    refine ⟨?_, ?_, ?_⟩ <;>
    simp [inB, adj] <;> omega

lemma new_graph_horiz {x yv : Int} (h0 : 0 ≤ x) (h1 : x < 19)
    (h2 : 0 ≤ yv) (h3 : yv < 20) :
    ((x, yv), (x + 1, yv)) ∈ Arena.new.graph := by
  simp only [Arena.new, List.mem_flatMap, List.mem_range, List.mem_append,
    mem_if_singleton, AW_toNat, AH_toNat, AW_eq, AH_eq]
  refine ⟨x.toNat, by omega, yv.toNat, by omega, Or.inl ⟨by omega, ?_⟩⟩
  rw [Int.toNat_of_nonneg h0, Int.toNat_of_nonneg h2]

lemma new_graph_vert {x yv : Int} (h0 : 0 ≤ x) (h1 : x < 20)
    (h2 : 0 ≤ yv) (h3 : yv < 19) :
    ((x, yv), (x, yv + 1)) ∈ Arena.new.graph := by
  simp only [Arena.new, List.mem_flatMap, List.mem_range, List.mem_append,
    mem_if_singleton, AW_toNat, AH_toNat, AW_eq, AH_eq]
  refine ⟨x.toNat, by omega, yv.toNat, by omega, Or.inr ⟨by omega, ?_⟩⟩
  rw [Int.toNat_of_nonneg h0, Int.toNat_of_nonneg h2]

lemma Inv_new : Inv Arena.new := by
  constructor
  · intro e he
    obtain ⟨h1, h2, h3⟩ := new_graph_elim he
    exact ⟨h1, h2, h3, rfl, rfl⟩
  · rintro ⟨ux, uy⟩ ⟨vx, vy⟩ hu hv hadj - -
    simp only [inB, AW_eq, AH_eq] at hu hv
    obtain ⟨hu1, hu2, hu3, hu4⟩ := hu
    obtain ⟨hv1, hv2, hv3, hv4⟩ := hv
    rcases hadj with ⟨he, h | h⟩ | ⟨he, h | h⟩ <;> simp only at he h <;>
      subst he <;> subst h
    · exact Or.inl (new_graph_horiz (by omega) (by omega) (by omega) (by omega))
    · exact Or.inr (new_graph_horiz (by omega) (by omega) (by omega) (by omega))
    · exact Or.inl (new_graph_vert (by omega) (by omega) (by omega) (by omega))
    · exact Or.inr (new_graph_vert (by omega) (by omega) (by omega) (by omega))

lemma updOcc_none_mono {f : Cell → Option Occupancy} {c d : Cell}
    (h : f d = none) : updOcc f c none d = none := by
  unfold updOcc; split
  · rfl
  · exact h

lemma isset_false_of {a : Arena} {x y : Int} (h : ¬ oob x y)
    (ho : a.occ (x, y) = none) : a.isset x y = false :=
  (isset_false_iff h).mpr ho

lemma inB_iff {c : Cell} : inB c ↔ 0 ≤ c.1 ∧ c.1 < 20 ∧ 0 ≤ c.2 ∧ c.2 < 20 := by
  unfold inB; simp

lemma Inv_set {a a' : Arena} {x y : Int} {o : Occupancy}
    (hInv : Inv a) (h : a.set x y o = some a') : Inv a' := by
  obtain ⟨h1, h2⟩ := hInv
  unfold Arena.set at h
  split at h
  · simp only [Option.some.injEq] at h; subst h; exact ⟨h1, h2⟩
  · rename_i hoob
    split at h
    · cases h
    · rename_i hocc
      simp only [Option.some.injEq] at h
      subst h
      constructor
      · intro e he
        simp only [Arena.remove_edges_with, List.mem_filter, decide_eq_true_eq] at he
        obtain ⟨hg, hne1, hne2⟩ := he
        obtain ⟨b1, b2, b3, b4, b5⟩ := h1 e hg
        refine ⟨b1, b2, b3, ?_, ?_⟩
        · show updOcc a.occ (x, y) (some o) e.1 = none
          rw [updOcc_ne hne1]; exact b4
        · show updOcc a.occ (x, y) (some o) e.2 = none
          rw [updOcc_ne hne2]; exact b5
      · intro u v hu hv hadj hfu hfv
        replace hfu : updOcc a.occ (x, y) (some o) u = none := hfu
        replace hfv : updOcc a.occ (x, y) (some o) v = none := hfv
        by_cases hux : u = (x, y)
        · rw [hux, updOcc_self] at hfu; simp at hfu
        by_cases hvx : v = (x, y)
        · rw [hvx, updOcc_self] at hfv; simp at hfv
        rw [updOcc_ne hux] at hfu
        rw [updOcc_ne hvx] at hfv
        rcases h2 u v hu hv hadj hfu hfv with hm | hm
        · exact Or.inl (by
            simp only [Arena.remove_edges_with, List.mem_filter, decide_eq_true_eq]
            exact ⟨hm, hux, hvx⟩)
        · exact Or.inr (by
            simp only [Arena.remove_edges_with, List.mem_filter, decide_eq_true_eq]
            exact ⟨hm, hvx, hux⟩)

lemma Inv_clear_add {a : Arena} {x y : Int}
    (hInv : Inv a) (hin : ¬ oob x y) :
    Inv (Arena.add_edges_with { a with occ := updOcc a.occ (x, y) none } x y) := by
  obtain ⟨h1, h2⟩ := hInv
  have hxy : inB (x, y) := not_oob_iff.mp hin
  rw [inB_iff] at hxy
  obtain ⟨hx0, hx1, hy0, hy1⟩ := hxy
  constructor
  · intro e he
    rw [mem_add_edges_with] at he
    rcases he with hg | ⟨hc, hi, rfl⟩ | ⟨hc, hi, rfl⟩ | ⟨hc, hi, rfl⟩ | ⟨hc, hi, rfl⟩
    · obtain ⟨b1, b2, b3, b4, b5⟩ := h1 e hg
      exact ⟨b1, b2, b3, updOcc_none_mono b4, updOcc_none_mono b5⟩
    · rw [AW_eq] at hc
      have hnb : ¬ oob (x + 1) y := by unfold oob; rw [AW_eq, AH_eq]; omega
      refine ⟨(?_ : inB (x, y)), (?_ : inB (x + 1, y)),
        Or.inl ⟨rfl, Or.inl rfl⟩, updOcc_self, (isset_false_iff hnb).mp hi⟩ <;>
        (rw [inB_iff]; refine ⟨?_, ?_, ?_, ?_⟩ <;> omega)
    · rw [AH_eq] at hc
      have hnb : ¬ oob x (y + 1) := by unfold oob; rw [AW_eq, AH_eq]; omega
      refine ⟨(?_ : inB (x, y)), (?_ : inB (x, y + 1)),
        Or.inr ⟨rfl, Or.inl rfl⟩, updOcc_self, (isset_false_iff hnb).mp hi⟩ <;>
        (rw [inB_iff]; refine ⟨?_, ?_, ?_, ?_⟩ <;> omega)
    · have hnb : ¬ oob (x - 1) y := by unfold oob; rw [AW_eq, AH_eq]; omega
      refine ⟨(?_ : inB (x, y)), (?_ : inB (x - 1, y)),
        Or.inl ⟨rfl, Or.inr (by omega : x = x - 1 + 1)⟩, updOcc_self,
        (isset_false_iff hnb).mp hi⟩ <;>
        (rw [inB_iff]; refine ⟨?_, ?_, ?_, ?_⟩ <;> omega)
    · have hnb : ¬ oob x (y - 1) := by unfold oob; rw [AW_eq, AH_eq]; omega
      refine ⟨(?_ : inB (x, y)), (?_ : inB (x, y - 1)),
        Or.inr ⟨rfl, Or.inr (by omega : y = y - 1 + 1)⟩, updOcc_self,
        (isset_false_iff hnb).mp hi⟩ <;>
        (rw [inB_iff]; refine ⟨?_, ?_, ?_, ?_⟩ <;> omega)
  · rintro ⟨ux, uy⟩ ⟨vx, vy⟩ hu hv hadj hfu hfv
    replace hfu : updOcc a.occ (x, y) none (ux, uy) = none := hfu
    replace hfv : updOcc a.occ (x, y) none (vx, vy) = none := hfv
    rw [inB_iff] at hu hv
    obtain ⟨hu1, hu2, hu3, hu4⟩ := hu
    obtain ⟨hv1, hv2, hv3, hv4⟩ := hv
    simp only at hu1 hu2 hu3 hu4 hv1 hv2 hv3 hv4
    by_cases hux : ((ux, uy) : Cell) = (x, y)
    · rw [Prod.mk.injEq] at hux
      obtain ⟨rfl, rfl⟩ := hux
      rcases hadj with ⟨he, h | h⟩ | ⟨he, h | h⟩ <;> simp only at he h <;> subst he
      · subst h
        refine Or.inl ((mem_add_edges_with).mpr (Or.inr (Or.inl
          ⟨by rw [AW_eq]; omega, ?_, rfl⟩)))
        exact isset_false_of (by unfold oob; rw [AW_eq, AH_eq]; omega) hfv
      · have hveq : vx = ux - 1 := by omega
        subst hveq
        refine Or.inl ((mem_add_edges_with).mpr
          (Or.inr (Or.inr (Or.inr (Or.inl ⟨by omega, ?_, rfl⟩)))))
        exact isset_false_of (by unfold oob; rw [AW_eq, AH_eq]; omega) hfv
      · subst h
        refine Or.inl ((mem_add_edges_with).mpr (Or.inr (Or.inr (Or.inl
          ⟨by rw [AH_eq]; omega, ?_, rfl⟩))))
        exact isset_false_of (by unfold oob; rw [AW_eq, AH_eq]; omega) hfv
      · have hveq : vy = uy - 1 := by omega
        subst hveq
        refine Or.inl ((mem_add_edges_with).mpr
          (Or.inr (Or.inr (Or.inr (Or.inr ⟨by omega, ?_, rfl⟩)))))
        exact isset_false_of (by unfold oob; rw [AW_eq, AH_eq]; omega) hfv
    by_cases hvx : ((vx, vy) : Cell) = (x, y)
    · rw [Prod.mk.injEq] at hvx
      obtain ⟨rfl, rfl⟩ := hvx
      rcases hadj with ⟨he, h | h⟩ | ⟨he, h | h⟩ <;> simp only at he h <;> subst he
      · have hueq : ux = vx - 1 := by omega
        subst hueq
        refine Or.inr ((mem_add_edges_with).mpr
          (Or.inr (Or.inr (Or.inr (Or.inl ⟨by omega, ?_, rfl⟩)))))
        exact isset_false_of (by unfold oob; rw [AW_eq, AH_eq]; omega) hfu
      · subst h
        refine Or.inr ((mem_add_edges_with).mpr (Or.inr (Or.inl
          ⟨by rw [AW_eq]; omega, ?_, rfl⟩)))
        exact isset_false_of (by unfold oob; rw [AW_eq, AH_eq]; omega) hfu
      · have hueq : uy = vy - 1 := by omega
        subst hueq
        refine Or.inr ((mem_add_edges_with).mpr
          (Or.inr (Or.inr (Or.inr (Or.inr ⟨by omega, ?_, rfl⟩)))))
        exact isset_false_of (by unfold oob; rw [AW_eq, AH_eq]; omega) hfu
      · subst h
        refine Or.inr ((mem_add_edges_with).mpr (Or.inr (Or.inr (Or.inl
          ⟨by rw [AH_eq]; omega, ?_, rfl⟩))))
        exact isset_false_of (by unfold oob; rw [AW_eq, AH_eq]; omega) hfu
    rw [updOcc_ne hux] at hfu
    rw [updOcc_ne hvx] at hfv
    rcases h2 _ _ (by rw [inB_iff]; refine ⟨?_, ?_, ?_, ?_⟩ <;> omega)
      (by rw [inB_iff]; refine ⟨?_, ?_, ?_, ?_⟩ <;> omega)
      hadj hfu hfv with hm | hm
    · exact Or.inl ((mem_add_edges_with).mpr (Or.inl hm))
    · exact Or.inr ((mem_add_edges_with).mpr (Or.inl hm))

lemma Inv_unset {a a' : Arena} {x y : Int} {r : Option Occupancy}
    (hInv : Inv a) (h : a.unset x y = some (r, a')) : Inv a' := by
  unfold Arena.unset at h
  split at h
  · simp only [Option.some.injEq, Prod.mk.injEq] at h
    obtain ⟨-, rfl⟩ := h
    exact hInv
  · rename_i hoob
    cases hocc : a.occ (x, y) with
    | none => rw [hocc] at h; cases h
    | some o =>
        rw [hocc] at h
        simp only [Option.some.injEq, Prod.mk.injEq] at h
        obtain ⟨-, rfl⟩ := h
        exact Inv_clear_add hInv hoob

lemma Inv_unset_maybe {a a' : Arena} {x y : Int} {r : Option Occupancy}
    (hInv : Inv a) (h : a.unset_maybe x y = (r, a')) : Inv a' := by
  unfold Arena.unset_maybe at h
  split at h
  · simp only [Prod.mk.injEq] at h
    obtain ⟨-, rfl⟩ := h
    exact hInv
  · rename_i hoob
    simp only [Prod.mk.injEq] at h
    obtain ⟨-, rfl⟩ := h
    exact Inv_clear_add hInv hoob

lemma Reachable_Inv {a : Arena} (h : Reachable a) : Inv a := by
  induction h with
  | new => exact Inv_new
  | set _ hs ih => exact Inv_set ih hs
  | unset _ hs ih => exact Inv_unset ih hs
  | unset_maybe _ hs ih => exact Inv_unset_maybe ih hs

/-- Claim C1: in every reachable `Arena` state (from `Arena::new` under any
sequence of `set`, `unset`, `unset_maybe` calls), for every pair of
grid-adjacent in-arena cells `u`, `v`, an edge between their graph nodes
exists iff both cells are unoccupied. -/
theorem reachable_edge_iff_unoccupied {a : Arena} (hr : Reachable a)
    {u v : Cell} (hu : inB u) (hv : inB v) (huv : adj u v) :
    edgeExists a u v ↔ a.occ u = none ∧ a.occ v = none := by
  obtain ⟨h1, h2⟩ := Reachable_Inv hr
  constructor
  · rintro (hm | hm)
    · obtain ⟨-, -, -, h4, h5⟩ := h1 _ hm
      exact ⟨h4, h5⟩
    · obtain ⟨-, -, -, h4, h5⟩ := h1 _ hm
      exact ⟨h5, h4⟩
  · rintro ⟨hfu, hfv⟩
    exact h2 u v hu hv huv hfu hfv

/-- Witness for C1: the invariant instantiated at the fresh arena and the
adjacent pair `(0,0)`, `(1,0)`. -/
theorem reachable_edge_iff_unoccupied_w :
    edgeExists Arena.new (0, 0) (1, 0) ↔
      Arena.new.occ (0, 0) = none ∧ Arena.new.occ (1, 0) = none :=
  reachable_edge_iff_unoccupied Reachable.new (by decide) (by decide) (by decide)

lemma edgeExists_symm {a : Arena} {u v : Cell} (h : edgeExists a u v) :
    edgeExists a v u :=
  h.elim Or.inr Or.inl

/-- Claim C6, counterexample: on the fresh arena, `unset_maybe` at the free
in-arena cell `(5,5)` returns `none` and leaves occupancy alone, but it is
not a no-op on the whole `Arena` state: the graph changes (four duplicate
parallel edges are appended), so the new graph differs from the old one. -/
theorem unset_maybe_free_changes_graph :
    (Arena.new.unset_maybe 5 5).1 = none ∧
    ¬ (Arena.new.unset_maybe 5 5).2.graph = Arena.new.graph := by
  constructor
  · rfl
  · intro h
    have hlen : ((Arena.new.unset_maybe 5 5).2.graph).length = Arena.new.graph.length :=
      congrArg List.length h
    exact absurd hlen (by decide)

/-- Claim C6 (amended): calling `unset_maybe` on a currently-unoccupied
in-arena cell of an arena satisfying the occupancy/connectivity invariant
returns `none`, leaves the occupancy of every cell unchanged, and leaves the
edge-existence relation unchanged; however it appends duplicate parallel
edges from the cell to each unoccupied in-bounds neighbour, so the
multigraph itself (and hence the whole `Arena` value) does change. -/
theorem unset_maybe_free_noop {a : Arena} (hInv : Inv a) {x y : Int}
    (hin : ¬ oob x y) (hfree : a.occ (x, y) = none) :
    (a.unset_maybe x y).1 = none ∧
    (∀ c : Cell, (a.unset_maybe x y).2.occ c = a.occ c) ∧
    (∀ u v : Cell, edgeExists (a.unset_maybe x y).2 u v ↔ edgeExists a u v) := by
  have hb := not_oob_iff.mp hin
  rw [inB_iff] at hb
  obtain ⟨hx0, hx1, hy0, hy1⟩ := hb
  unfold Arena.unset_maybe
  rw [if_neg hin]
  refine ⟨hfree, ?_, ?_⟩
  · intro c
    show updOcc a.occ (x, y) none c = a.occ c
    unfold updOcc
    split
    · rename_i hc
      rw [hc]
      exact hfree.symm
    · rfl
  · have key : ∀ w z : Cell,
        (w, z) ∈ (Arena.add_edges_with { a with occ := updOcc a.occ (x, y) none } x y).graph →
        edgeExists a w z := by
      intro w z hm
      rw [mem_add_edges_with] at hm
      rcases hm with hg | ⟨hc, hi, he⟩ | ⟨hc, hi, he⟩ | ⟨hc, hi, he⟩ | ⟨hc, hi, he⟩ <;>
        [exact Or.inl hg; rw [AW_eq] at hc; rw [AH_eq] at hc; skip; skip] <;>
        rw [Prod.mk.injEq] at he <;> obtain ⟨rfl, rfl⟩ := he
      · have hnb : ¬ oob (x + 1) y := by unfold oob; rw [AW_eq, AH_eq]; omega
        have hzf : a.occ (x + 1, y) = none := by
          have := (isset_false_iff hnb).mp hi
          rwa [show ({ a with occ := updOcc a.occ (x, y) none } : Arena).occ (x + 1, y)
            = updOcc a.occ (x, y) none (x + 1, y) from rfl,
            updOcc_ne (by intro hcc; rw [Prod.mk.injEq] at hcc; omega)] at this
        exact hInv.2 _ _ (not_oob_iff.mp hin)
          (by rw [inB_iff]; refine ⟨?_, ?_, ?_, ?_⟩ <;> omega)
          (Or.inl ⟨rfl, Or.inl rfl⟩) hfree hzf
      · have hnb : ¬ oob x (y + 1) := by unfold oob; rw [AW_eq, AH_eq]; omega
        have hzf : a.occ (x, y + 1) = none := by
          have := (isset_false_iff hnb).mp hi
          rwa [show ({ a with occ := updOcc a.occ (x, y) none } : Arena).occ (x, y + 1)
            = updOcc a.occ (x, y) none (x, y + 1) from rfl,
            updOcc_ne (by intro hcc; rw [Prod.mk.injEq] at hcc; omega)] at this
        exact hInv.2 _ _ (not_oob_iff.mp hin)
          (by rw [inB_iff]; refine ⟨?_, ?_, ?_, ?_⟩ <;> omega)
          (Or.inr ⟨rfl, Or.inl rfl⟩) hfree hzf
      · have hnb : ¬ oob (x - 1) y := by unfold oob; rw [AW_eq, AH_eq]; omega
        have hzf : a.occ (x - 1, y) = none := by
          have := (isset_false_iff hnb).mp hi
          rwa [show ({ a with occ := updOcc a.occ (x, y) none } : Arena).occ (x - 1, y)
            = updOcc a.occ (x, y) none (x - 1, y) from rfl,
            updOcc_ne (by intro hcc; rw [Prod.mk.injEq] at hcc; omega)] at this
        exact hInv.2 _ _ (not_oob_iff.mp hin)
          (by rw [inB_iff]; refine ⟨?_, ?_, ?_, ?_⟩ <;> omega)
          (Or.inl ⟨rfl, Or.inr (by omega : x = x - 1 + 1)⟩) hfree hzf
      · have hnb : ¬ oob x (y - 1) := by unfold oob; rw [AW_eq, AH_eq]; omega
        have hzf : a.occ (x, y - 1) = none := by
          have := (isset_false_iff hnb).mp hi
          rwa [show ({ a with occ := updOcc a.occ (x, y) none } : Arena).occ (x, y - 1)
            = updOcc a.occ (x, y) none (x, y - 1) from rfl,
            updOcc_ne (by intro hcc; rw [Prod.mk.injEq] at hcc; omega)] at this
        exact hInv.2 _ _ (not_oob_iff.mp hin)
          (by rw [inB_iff]; refine ⟨?_, ?_, ?_, ?_⟩ <;> omega)
          (Or.inr ⟨rfl, Or.inr (by omega : y = y - 1 + 1)⟩) hfree hzf
    intro u v
    constructor
    · rintro (hm | hm)
      · exact key _ _ hm
      · exact edgeExists_symm (key _ _ hm)
    · rintro (hm | hm)
      · exact Or.inl ((mem_add_edges_with).mpr (Or.inl hm))
      · exact Or.inr ((mem_add_edges_with).mpr (Or.inl hm))

/-- Witness for C6 (amended), at the fresh arena and cell `(5,5)`. -/
theorem unset_maybe_free_noop_w :
    (Arena.new.unset_maybe 5 5).1 = none ∧
    (∀ c : Cell, (Arena.new.unset_maybe 5 5).2.occ c = Arena.new.occ c) ∧
    (∀ u v : Cell,
      edgeExists (Arena.new.unset_maybe 5 5).2 u v ↔ edgeExists Arena.new u v) :=
  unset_maybe_free_noop Inv_new (by decide) rfl

/-- Claim C8: `set` on an occupied in-arena cell and `unset` on a free
in-arena cell panic (fail fast, modelled by `none`), while `set`, `unset`,
`unset_maybe`, `isset` and `occ` with out-of-range coordinates leave the
arena untouched and answer unoccupied/none. -/
theorem arena_panics_and_oob_noops (a : Arena) (x y : Int) (o : Occupancy) :
    (¬ oob x y → (a.occ (x, y)).isSome = true → a.set x y o = none) ∧
    (¬ oob x y → a.occ (x, y) = none → a.unset x y = none) ∧
    (oob x y →
      a.set x y o = some a ∧
      a.unset x y = some (none, a) ∧
      a.unset_maybe x y = (none, a) ∧
      a.isset x y = false ∧
      a.occAt x y = none) := by
  refine ⟨?_, ?_, ?_⟩
  · intro h1 h2
    unfold Arena.set
    rw [if_neg h1, if_pos h2]
  · intro h1 h2
    unfold Arena.unset
    rw [if_neg h1]
    simp only [h2]
  · intro h1
    simp [Arena.set, Arena.unset, Arena.unset_maybe, Arena.isset, Arena.occAt, h1]

/-- A sample arena holding one berry at `(5,5)`, used by witnesses. -/
def aBerry : Arena := (Arena.new.set 5 5 (Occupancy.Berry 0)).getD Arena.new

/-- Witness for C8: the panic cases at an occupied and at a free in-arena
cell of `aBerry`, and the out-of-range no-op cases at `(25,3)`. -/
theorem arena_panics_and_oob_noops_w :
    aBerry.set 5 5 (Occupancy.Rat 1) = none ∧
    aBerry.unset 9 9 = none ∧
    (aBerry.set 25 3 (Occupancy.Rat 1) = some aBerry ∧
      aBerry.unset 25 3 = some (none, aBerry) ∧
      aBerry.unset_maybe 25 3 = (none, aBerry) ∧
      aBerry.isset 25 3 = false ∧
      aBerry.occAt 25 3 = none) :=
  ⟨(arena_panics_and_oob_noops aBerry 5 5 (Occupancy.Rat 1)).1 (by decide) (by decide),
   (arena_panics_and_oob_noops aBerry 9 9 (Occupancy.Rat 1)).2.1 (by decide) (by decide),
   (arena_panics_and_oob_noops aBerry 25 3 (Occupancy.Rat 1)).2.2 (by decide)⟩

/-! ### Path planning: petgraph's all_simple_paths over the multigraph -/

/-- Neighbour iteration of node `n` in petgraph's adjacency representation:
edges with `n` as source (most recently added first), then edges with `n`
as target (most recently added first). -/
def neighbors (g : List Edge) (n : Cell) : List Cell :=
  ((g.filter fun e => decide (e.1 = n)).reverse).map (fun e => e.2)
  ++ ((g.filter fun e => decide (e.2 = n)).reverse).map (fun e => e.1)

/-- The DFS of petgraph's `all_simple_paths` with `min_intermediate_nodes = 0`:
`visited` is the current path (including the start node, never containing
`tgt` when the search starts off `tgt`), and `maxLen` is
`max_intermediate_nodes + 1`.  Below the depth limit a child equal to `tgt`
yields a path and iteration continues, an already-visited child is skipped,
any other child is descended into; at the depth limit a single path is
yielded when any remaining child equals `tgt`, then the frame pops.  The
fuel only bounds the recursion and is never exhausted when it starts at
`maxLen`. -/
def dfsPaths (g : List Edge) (tgt : Cell) (maxLen : Nat) :
    Nat → List Cell → Cell → List (List Cell)
  | 0, _, _ => []
  | fuel + 1, visited, cur =>
    if visited.length < maxLen then
      (neighbors g cur).flatMap fun child =>
        if child = tgt then [visited ++ [tgt]]
        else if child ∈ visited then []
        else dfsPaths g tgt maxLen fuel (visited ++ [child]) child
    else
      if (neighbors g cur).any (fun c => decide (c = tgt)) then [visited ++ [tgt]]
      else []

/-- `all_simple_paths(graph, src, tgt, 0, Some(maxIntermediate))` collected
into a list in DFS order. -/
def all_simple_paths (g : List Edge) (src tgt : Cell) (maxIntermediate : Nat) :
    List (List Cell) :=
  dfsPaths g tgt (maxIntermediate + 1) (maxIntermediate + 1) [src] src

inductive Target where
  | Position (p : Position)
  | Entity (e : Nat)
deriving DecidableEq, Repr

/-- The `AI` component restricted to the core state; the two timers are
external cooldown bookkeeping outside the core. -/
structure AI where
  path : List Position
  target : Option Target
deriving DecidableEq, Repr

/-- `AI::plan_path`: temporarily `unset` the start cell (panics when the
start is free), tolerantly `unset_maybe` the goal cell, collect all simple
paths between the two nodes with at most `MAX_PATH_LENGTH` intermediate
nodes (the `nodes.get_by_left(..).unwrap()` calls panic when either cell is
outside the arena), restore the two occupancies, and store the first
collected path minus its first node as the new route; when the enumeration
is empty the old route is left in place. -/
def AI.plan_path (ai : AI) (p goal : Position) (a : Arena) : Option (AI × Arena) :=
  match a.unset p.x p.y with
  | none => none
  | some sa =>
    let start_occ := sa.1
    let a1 := sa.2
    let ga := a1.unset_maybe goal.x goal.y
    let goal_occ := ga.1
    let a2 := ga.2
    if ¬ inB (p.x, p.y) ∨ ¬ inB (goal.x, goal.y) then none
    else
      let paths := all_simple_paths a2.graph (p.x, p.y) (goal.x, goal.y) MAX_PATH_LENGTH
      match (match start_occ with
             | some o => a2.set p.x p.y o
             | none => some a2) with
      | none => none
      | some a3 =>
        match (match goal_occ with
               | some o => a3.set goal.x goal.y o
               | none => some a3) with
        | none => none
        | some a4 =>
          match paths.head? with
          | some path =>
              some ({ ai with path := (path.drop 1).map (fun c => ⟨c.1, c.2⟩) }, a4)
          | none => some (ai, a4)

/-- `AI::clear`. -/
def AI.clear (ai : AI) : AI :=
  { ai with path := [], target := none }

@[simp] lemma add_edges_with_occ (b : Arena) (x y : Int) :
    (b.add_edges_with x y).occ = b.occ := rfl

@[simp] lemma remove_edges_with_occ (b : Arena) (x y : Int) :
    (b.remove_edges_with x y).occ = b.occ := rfl

/-- The arena as it stands during `plan_path`'s enumeration: the start cell
unset, then the goal cell tolerantly unset. -/
def planArena (a : Arena) (p g : Position) : Arena :=
  ((Arena.add_edges_with { a with occ := updOcc a.occ (p.x, p.y) none } p.x p.y).unset_maybe
    g.x g.y).2

lemma planArena_occ {a : Arena} {p g : Position} {c : Cell}
    (hc1 : c ≠ (p.x, p.y)) (hc2 : c ≠ (g.x, g.y)) :
    (planArena a p g).occ c = a.occ c := by
  unfold planArena Arena.unset_maybe
  split
  · exact (updOcc_ne hc1 : updOcc a.occ (p.x, p.y) none c = a.occ c)
  · show updOcc (updOcc a.occ (p.x, p.y) none) (g.x, g.y) none c = a.occ c
    rw [updOcc_ne hc2, updOcc_ne hc1]

lemma Inv_planArena {a : Arena} {p g : Position} (hInv : Inv a)
    (hp : inB (p.x, p.y)) : Inv (planArena a p g) := by
  have h1 : Inv (Arena.add_edges_with { a with occ := updOcc a.occ (p.x, p.y) none } p.x p.y) :=
    Inv_clear_add hInv (not_oob_iff.mpr hp)
  exact Inv_unset_maybe h1 rfl

lemma set_free_eq {b : Arena} {x y : Int} {o : Occupancy}
    (hno : ¬ oob x y) (hfree : b.occ (x, y) = none) :
    b.set x y o =
      some (Arena.remove_edges_with { b with occ := updOcc b.occ (x, y) (some o) } x y) := by
  unfold Arena.set
  rw [if_neg hno, hfree]
  simp

lemma plan_path_elim {ai ai' : AI} {p g : Position} {a a' : Arena}
    (hp : inB (p.x, p.y)) (hg : inB (g.x, g.y))
    (h : ai.plan_path p g a = some (ai', a')) :
    ∃ o : Occupancy, a.occ (p.x, p.y) = some o ∧
      a'.occ (p.x, p.y) = a.occ (p.x, p.y) ∧
      a'.occ (g.x, g.y) = a.occ (g.x, g.y) ∧
      ((∃ path,
          (all_simple_paths (planArena a p g).graph (p.x, p.y) (g.x, g.y)
            MAX_PATH_LENGTH).head? = some path ∧
          ai' = { ai with path := (path.drop 1).map (fun c => ⟨c.1, c.2⟩) }) ∨
        ((all_simple_paths (planArena a p g).graph (p.x, p.y) (g.x, g.y)
          MAX_PATH_LENGTH).head? = none ∧ ai' = ai)) := by
  have hpo : ¬ oob p.x p.y := not_oob_iff.mpr hp
  have hgo : ¬ oob g.x g.y := not_oob_iff.mpr hg
  cases hso : a.occ (p.x, p.y) with
  | none =>
      rw [show ai.plan_path p g a = none by
        unfold AI.plan_path Arena.unset; rw [if_neg hpo, hso]] at h
      cases h
  | some o =>
      refine ⟨o, rfl, ?_⟩
      unfold AI.plan_path at h
      rw [show a.unset p.x p.y = some (some o,
          Arena.add_edges_with { a with occ := updOcc a.occ (p.x, p.y) none } p.x p.y) by
        unfold Arena.unset; rw [if_neg hpo, hso]] at h
      dsimp only at h
      rw [show (Arena.add_edges_with { a with occ := updOcc a.occ (p.x, p.y) none }
            p.x p.y).unset_maybe g.x g.y
          = (updOcc a.occ (p.x, p.y) none (g.x, g.y), planArena a p g) by
        unfold planArena Arena.unset_maybe; rw [if_neg hgo]; rfl] at h
      dsimp only at h
      rw [if_neg (by push_neg; exact ⟨hp, hg⟩)] at h
      have hplanp : (planArena a p g).occ (p.x, p.y) = none := by
        unfold planArena Arena.unset_maybe
        rw [if_neg hgo]
        exact updOcc_none_mono updOcc_self
      rw [set_free_eq hpo hplanp] at h
      dsimp only at h
      by_cases hpg : ((g.x, g.y) : Cell) = (p.x, p.y)
      · rw [hpg, updOcc_self] at h
        dsimp only at h
        rw [hpg, hso]
        cases hh : (all_simple_paths (planArena a p g).graph (p.x, p.y) (p.x, p.y)
            MAX_PATH_LENGTH).head? with
        | some path =>
            rw [hh] at h
            simp only [Option.some.injEq, Prod.mk.injEq] at h
            obtain ⟨rfl, rfl⟩ := h
            have hocc : (Arena.remove_edges_with { planArena a p g with
                occ := updOcc (planArena a p g).occ (p.x, p.y) (some o) } p.x p.y).occ
                  (p.x, p.y) = some o := updOcc_self
            exact ⟨hocc, hocc, Or.inl ⟨path, rfl, rfl⟩⟩
        | none =>
            rw [hh] at h
            simp only [Option.some.injEq, Prod.mk.injEq] at h
            obtain ⟨rfl, rfl⟩ := h
            have hocc : (Arena.remove_edges_with { planArena a p g with
                occ := updOcc (planArena a p g).occ (p.x, p.y) (some o) } p.x p.y).occ
                  (p.x, p.y) = some o := updOcc_self
            exact ⟨hocc, hocc, Or.inr ⟨rfl, rfl⟩⟩
      · rw [updOcc_ne hpg] at h
        have hplang : (planArena a p g).occ (g.x, g.y) = none := by
          unfold planArena Arena.unset_maybe
          rw [if_neg hgo]
          exact updOcc_self
        cases hgocc : a.occ (g.x, g.y) with
        | some og =>
            rw [hgocc] at h
            dsimp only at h
            rw [set_free_eq hgo (by
              show updOcc (planArena a p g).occ (p.x, p.y) (some o) (g.x, g.y) = none
              rw [updOcc_ne hpg]
              exact hplang)] at h
            dsimp only at h
            cases hh : (all_simple_paths (planArena a p g).graph (p.x, p.y) (g.x, g.y)
                MAX_PATH_LENGTH).head? with
            | some path =>
                rw [hh] at h
                simp only [Option.some.injEq, Prod.mk.injEq] at h
                obtain ⟨rfl, rfl⟩ := h
                refine ⟨?_, ?_, Or.inl ⟨path, rfl, rfl⟩⟩
                · show updOcc _ (g.x, g.y) (some og) (p.x, p.y) = some o
                  rw [updOcc_ne (fun hc => hpg hc.symm)]
                  show updOcc (planArena a p g).occ (p.x, p.y) (some o) (p.x, p.y) = some o
                  exact updOcc_self
                · show updOcc _ (g.x, g.y) (some og) (g.x, g.y) = some og
                  exact updOcc_self
            | none =>
                rw [hh] at h
                simp only [Option.some.injEq, Prod.mk.injEq] at h
                obtain ⟨rfl, rfl⟩ := h
                refine ⟨?_, ?_, Or.inr ⟨rfl, rfl⟩⟩
                · show updOcc _ (g.x, g.y) (some og) (p.x, p.y) = some o
                  rw [updOcc_ne (fun hc => hpg hc.symm)]
                  show updOcc (planArena a p g).occ (p.x, p.y) (some o) (p.x, p.y) = some o
                  exact updOcc_self
                · show updOcc _ (g.x, g.y) (some og) (g.x, g.y) = some og
                  exact updOcc_self
        | none =>
            rw [hgocc] at h
            dsimp only at h
            cases hh : (all_simple_paths (planArena a p g).graph (p.x, p.y) (g.x, g.y)
                MAX_PATH_LENGTH).head? with
            | some path =>
                rw [hh] at h
                simp only [Option.some.injEq, Prod.mk.injEq] at h
                obtain ⟨rfl, rfl⟩ := h
                refine ⟨?_, ?_, Or.inl ⟨path, rfl, rfl⟩⟩
                · show updOcc (planArena a p g).occ (p.x, p.y) (some o) (p.x, p.y)
                    = some o
                  exact updOcc_self
                · show updOcc (planArena a p g).occ (p.x, p.y) (some o) (g.x, g.y)
                    = none
                  rw [updOcc_ne hpg]
                  exact hplang
            | none =>
                rw [hh] at h
                simp only [Option.some.injEq, Prod.mk.injEq] at h
                obtain ⟨rfl, rfl⟩ := h
                refine ⟨?_, ?_, Or.inr ⟨rfl, rfl⟩⟩
                · show updOcc (planArena a p g).occ (p.x, p.y) (some o) (p.x, p.y)
                    = some o
                  exact updOcc_self
                · show updOcc (planArena a p g).occ (p.x, p.y) (some o) (g.x, g.y)
                    = none
                  rw [updOcc_ne hpg]
                  exact hplang

/-- Claim C7: for every in-arena start and goal, whenever `plan_path`
returns (route or not), the occupancy at the start cell and at the goal
cell equals the occupancy immediately before the call: the temporary
freeing of start and goal is fully undone. -/
theorem plan_path_restores_occupancy {ai ai' : AI} {p g : Position} {a a' : Arena}
    (hp : inB (p.x, p.y)) (hg : inB (g.x, g.y))
    (h : ai.plan_path p g a = some (ai', a')) :
    a'.occ (p.x, p.y) = a.occ (p.x, p.y) ∧ a'.occ (g.x, g.y) = a.occ (g.x, g.y) := by
  obtain ⟨o, -, h1, h2, -⟩ := plan_path_elim hp hg h
  exact ⟨h1, h2⟩

/-- Fold a list of `set` calls over an arena, propagating panics. -/
def setList (a : Arena) : List (Cell × Occupancy) → Option Arena
  | [] => some a
  | co :: rest =>
    match a.set co.1.1 co.1.2 co.2 with
    | none => none
    | some a' => setList a' rest

lemma Reachable_setList {a a' : Arena} {l : List (Cell × Occupancy)}
    (hr : Reachable a) (h : setList a l = some a') : Reachable a' := by
  induction l generalizing a with
  | nil =>
      unfold setList at h
      simp only [Option.some.injEq] at h
      subst h
      exact hr
  | cons co rest ih =>
      unfold setList at h
      cases hs : a.set co.1.1 co.1.2 co.2 with
      | none => rw [hs] at h; cases h
      | some b => rw [hs] at h; exact ih (Reachable.set hr hs) h

/-- A wall sealing off the corridor `(0,0) … (9,0)`: berries on the row
`y = 1` at `x = 0 … 10` and at `(10,0)`, and a rat standing at `(0,0)`. -/
def corridorSets : List (Cell × Occupancy) :=
  ((List.range 11).map fun i => (((Int.ofNat i, 1) : Cell), Occupancy.Berry (100 + i)))
  ++ [((10, 0), Occupancy.Berry 200), ((0, 0), Occupancy.Rat 0)]

def corridorArena : Arena := (setList Arena.new corridorSets).getD Arena.new

lemma corridor_some : setList Arena.new corridorSets = some corridorArena := rfl

def aiEmpty : AI := { path := [], target := none }

/-- The result of planning from `(0,0)` to `(9,0)` on the corridor arena. -/
def c2Pair : AI × Arena :=
  (AI.plan_path aiEmpty ⟨0, 0⟩ ⟨9, 0⟩ corridorArena).getD (aiEmpty, Arena.new)

lemma c2Pair_eq : AI.plan_path aiEmpty ⟨0, 0⟩ ⟨9, 0⟩ corridorArena = some c2Pair := rfl

/-- Witness for C7 at the corridor arena: start `(0,0)` occupied by a rat,
goal `(9,0)` free. -/
theorem plan_path_restores_occupancy_w :
    c2Pair.2.occ (0, 0) = corridorArena.occ (0, 0) ∧
    c2Pair.2.occ (9, 0) = corridorArena.occ (9, 0) :=
  plan_path_restores_occupancy (by decide) (by decide) c2Pair_eq

/-- Claim C2, counterexample: with the in-arena start `(0,0)` and goal
`(9,0)` on the corridor arena, `plan_path` produces a route of 9 cells,
exceeding `MAX_PATH_LENGTH = 8`: the bound caps intermediate nodes, not
route cells. -/
theorem plan_path_route_longer_than_L :
    AI.plan_path aiEmpty ⟨0, 0⟩ ⟨9, 0⟩ corridorArena = some c2Pair ∧
    c2Pair.1.path.length = 9 ∧
    ¬ c2Pair.1.path.length ≤ MAX_PATH_LENGTH :=
  ⟨c2Pair_eq, by decide, by decide⟩

/-- The cell occurs as an endpoint of some stored edge. -/
def isEndpoint (g : List Edge) (c : Cell) : Prop :=
  ∃ d : Cell, (d, c) ∈ g ∨ (c, d) ∈ g

lemma mem_neighbors {g : List Edge} {n c : Cell} (h : c ∈ neighbors g n) :
    (n, c) ∈ g ∨ (c, n) ∈ g := by
  unfold neighbors at h
  rcases List.mem_append.mp h with h | h <;>
    obtain ⟨e, he, rfl⟩ := List.mem_map.mp h <;>
    have hm := List.mem_filter.mp (List.mem_reverse.mp he)
  · have h1 : e.1 = n := by simpa using hm.2
    left
    rw [← h1]
    exact hm.1
  · have h2 : e.2 = n := by simpa using hm.2
    right
    rw [← h2]
    exact hm.1

lemma dfsPaths_sound {g : List Edge} {tgt : Cell} {maxLen : Nat} (src : Cell) :
    ∀ (fuel : Nat) (visited : List Cell) (cur : Cell) (p : List Cell),
      visited ≠ [] →
      visited.Nodup →
      tgt ∉ visited.drop 1 →
      visited.length ≤ maxLen →
      (∀ c ∈ visited, c = src ∨ isEndpoint g c) →
      p ∈ dfsPaths g tgt maxLen fuel visited cur →
      ∃ ext : List Cell,
        p = (visited ++ ext) ++ [tgt] ∧
        (visited ++ ext).Nodup ∧
        tgt ∉ (visited ++ ext).drop 1 ∧
        (visited ++ ext).length ≤ maxLen ∧
        (∀ c ∈ visited ++ ext, c = src ∨ isEndpoint g c) := by
  intro fuel
  induction fuel with
  | zero =>
      intro visited cur p _ _ _ _ _ hp
      cases hp
  | succ fuel ih =>
      intro visited cur p hne hnd htd hlen hend hp
      unfold dfsPaths at hp
      split at hp
      · rename_i hlt
        rw [List.mem_flatMap] at hp
        obtain ⟨child, hchild, hp⟩ := hp
        by_cases hct : child = tgt
        · rw [if_pos hct] at hp
          simp only [List.mem_singleton] at hp
          subst hp
          exact ⟨[], by simp, by simpa using hnd, by simpa using htd,
            by simpa using le_of_lt hlt, by simpa using hend⟩
        · rw [if_neg hct] at hp
          by_cases hcv : child ∈ visited
          · rw [if_pos hcv] at hp
            cases hp
          · rw [if_neg hcv] at hp
            obtain ⟨v0, vrest, rfl⟩ : ∃ v0 vrest, visited = v0 :: vrest := by
              cases visited with
              | nil => exact absurd rfl hne
              | cons v0 vrest => exact ⟨v0, vrest, rfl⟩
            have hne' : (v0 :: vrest) ++ [child] ≠ [] := by simp
            have hnd' : ((v0 :: vrest) ++ [child]).Nodup := by
              simp only [List.nodup_append, List.nodup_singleton, true_and,
                List.disjoint_singleton]
              exact ⟨hnd, hcv⟩
            have htd' : tgt ∉ ((v0 :: vrest) ++ [child]).drop 1 := by
              simp only [List.cons_append, List.drop_succ_cons, List.drop_zero,
                List.mem_append, List.mem_singleton] at htd ⊢
              rintro (hx | hx)
              · exact htd hx
              · exact hct hx.symm
            have hlen' : ((v0 :: vrest) ++ [child]).length ≤ maxLen := by
              have h1 : ((v0 :: vrest) ++ [child]).length = (v0 :: vrest).length + 1 := by
                simp
              omega
            have hend' : ∀ c ∈ (v0 :: vrest) ++ [child], c = src ∨ isEndpoint g c := by
              intro c hc
              rcases List.mem_append.mp hc with hc | hc
              · exact hend c hc
              · rw [List.mem_singleton] at hc
                subst hc
                exact Or.inr ⟨cur, mem_neighbors hchild⟩
            obtain ⟨ext, hp1, hp2, hp3, hp4, hp5⟩ :=
              ih ((v0 :: vrest) ++ [child]) child p hne' hnd' htd' hlen' hend' hp
            refine ⟨child :: ext, ?_, ?_, ?_, ?_, ?_⟩ <;>
              rw [show (v0 :: vrest) ++ child :: ext = ((v0 :: vrest) ++ [child]) ++ ext
                from by simp]
            · exact hp1
            · exact hp2
            · exact hp3
            · exact hp4
            · exact hp5
      · split at hp
        · simp only [List.mem_singleton] at hp
          subst hp
          exact ⟨[], by simp, by simpa using hnd, by simpa using htd,
            by simpa using hlen, by simpa using hend⟩
        · cases hp

/-- Claim C2 (amended): whenever `plan_path` — invoked with an empty route,
as at both call sites — produces a route for an in-arena start and goal on
an arena satisfying the occupancy/connectivity invariant, the route ends at
the goal, has at most `MAX_PATH_LENGTH` intermediate cells before the goal
(hence at most `MAX_PATH_LENGTH + 1 = 9` cells in total, not 8), excludes
the start whenever start and goal differ, and every cell on it other than
the goal was unoccupied at call time. -/
theorem plan_path_route_props {ai ai' : AI} {p g : Position} {a a' : Arena}
    (hInv : Inv a) (hp : inB (p.x, p.y)) (hg : inB (g.x, g.y))
    (hemp : ai.path = []) (h : ai.plan_path p g a = some (ai', a'))
    (hne : ai'.path ≠ []) :
    ai'.path.length ≤ MAX_PATH_LENGTH + 1 ∧
    ai'.path.getLast? = some g ∧
    (p ≠ g → p ∉ ai'.path) ∧
    (∀ q ∈ ai'.path, q ≠ g → a.occ (q.x, q.y) = none) := by
  obtain ⟨o, hso, -, -, hroute⟩ := plan_path_elim hp hg h
  rcases hroute with ⟨path, hh, rfl⟩ | ⟨-, rfl⟩
  swap
  · exact absurd hemp hne
  have hmem : path ∈ all_simple_paths (planArena a p g).graph (p.x, p.y) (g.x, g.y)
      MAX_PATH_LENGTH :=
    List.mem_of_mem_head? (Option.mem_def.mpr hh)
  unfold all_simple_paths at hmem
  obtain ⟨ext, hp1, hnd, htd, hlen, hendp⟩ :=
    dfsPaths_sound (p.x, p.y) _ _ _ _ (by simp) (by simp) (by simp)
      (by simp) (by intro c hc; rw [List.mem_singleton] at hc; exact Or.inl hc) hmem
  have hnd' : ((p.x, p.y) :: ext).Nodup := by simpa using hnd
  have htd' : ((g.x, g.y) : Cell) ∉ ext := by simpa using htd
  have hlen' : ext.length + 1 ≤ MAX_PATH_LENGTH + 1 := by
    simp only [List.singleton_append, List.length_cons] at hlen
    omega
  have hdrop : path.drop 1 = ext ++ [((g.x, g.y) : Cell)] := by
    rw [hp1]; simp
  dsimp only
  refine ⟨?_, ?_, ?_, ?_⟩
  · rw [hdrop]
    simpa using hlen'
  · rw [hdrop, List.map_append, List.map_singleton, List.getLast?_concat]
  · intro hpg hmemp
    rw [hdrop] at hmemp
    obtain ⟨c, hc, hfc⟩ := List.mem_map.mp hmemp
    have hceq : c = ((p.x, p.y) : Cell) := by
      have h1 : c.1 = p.x := congrArg Position.x hfc
      have h2 : c.2 = p.y := congrArg Position.y hfc
      rw [← h1, ← h2]
    subst hceq
    rcases List.mem_append.mp hc with hc | hc
    · exact (List.nodup_cons.mp hnd').1 hc
    · rw [List.mem_singleton] at hc
      apply hpg
      cases p
      cases g
      simpa [Prod.mk.injEq, Position.mk.injEq] using hc
  · intro q hq hqg
    rw [hdrop] at hq
    obtain ⟨c, hc, rfl⟩ := List.mem_map.mp hq
    rcases List.mem_append.mp hc with hc | hc
    · have hcp : c ≠ ((p.x, p.y) : Cell) := by
        intro hx
        subst hx
        exact (List.nodup_cons.mp hnd').1 hc
      have hcg : c ≠ ((g.x, g.y) : Cell) := by
        intro hx
        subst hx
        exact htd' hc
      have hcend : isEndpoint (planArena a p g).graph c := by
        rcases hendp c (by simp [hc]) with hx | hx
        · exact absurd hx hcp
        · exact hx
      have hfree : (planArena a p g).occ c = none := by
        obtain ⟨d, hd | hd⟩ := hcend
        · exact ((Inv_planArena hInv hp).1 _ hd).2.2.2.2
        · exact ((Inv_planArena hInv hp).1 _ hd).2.2.2.1
      show a.occ c = none
      rw [← planArena_occ hcp hcg]
      exact hfree
    · rw [List.mem_singleton] at hc
      subst hc
      exact absurd rfl hqg

/-- Witness for the amended C2 on the corridor arena: the 9-cell route
from `(0,0)` to `(9,0)` ends at the goal, omits the start, and runs over
cells free at call time. -/
theorem plan_path_route_props_w :
    c2Pair.1.path.length ≤ MAX_PATH_LENGTH + 1 ∧
    c2Pair.1.path.getLast? = some ⟨9, 0⟩ ∧
    ((⟨0, 0⟩ : Position) ≠ ⟨9, 0⟩ → (⟨0, 0⟩ : Position) ∉ c2Pair.1.path) ∧
    (∀ q ∈ c2Pair.1.path, q ≠ ⟨9, 0⟩ → corridorArena.occ (q.x, q.y) = none) :=
  plan_path_route_props
    (Reachable_Inv (Reachable_setList Reachable.new corridor_some))
    (by decide) (by decide) rfl c2Pair_eq (by decide)

/-! ### Segmented bodies and snake movement -/

/-- The `Segmented` component: the head's position plus the ordered list of
segment entities (head segment first, tail last). -/
structure Segmented where
  head_position : Position
  segments : List Nat
deriving DecidableEq, Repr

structure Scoreboard where
  berries_eaten_by_mongoose : Nat
  berries_eaten_by_rats : Nat
  berries_eaten_by_snakes : Nat
  rats_eaten_by_mongoose : Nat
  rats_eaten_by_snakes : Nat
  rats_escaped : Nat
  snakes_killed : Nat
deriving DecidableEq, Repr

def emptyScoreboard : Scoreboard := ⟨0, 0, 0, 0, 0, 0, 0⟩

/-- The follow-the-leader swap loop of `move_snake_segments` (and, minus
the flag, of `move_mongoose_segments`): per segment, swap the segment's
stored position with the travelling gap position; `grown` becomes true when
a segment's new position coincides with the new gap, which happens exactly
at the duplicate segment appended by `grow_snakes`. -/
def shiftLoop (pos : Nat → Position) (gap : Position) :
    List Nat → (Nat → Position) × Position × Bool
  | [] => (pos, gap, false)
  | s :: rest =>
    let res := shiftLoop (fun e => if e = s then gap else pos e) (pos s) rest
    (res.1, res.2.1, (decide (gap = pos s)) || res.2.2)

/-- `move_snake_segments`: update the head position, mark the new head cell
occupied (panics if it is already set), shift every segment one place down
the body, and free the vacated tail cell unless a growth duplicate was
detected, in which case the vacate step is suppressed once. -/
def move_snake_segments (snake : Nat) (next_position : Position) (segs : Segmented)
    (a : Arena) (pos : Nat → Position) :
    Option (Segmented × Arena × (Nat → Position)) :=
  let segs' := { segs with head_position := next_position }
  match a.set segs'.head_position.x segs'.head_position.y (Occupancy.Snake snake) with
  | none => none
  | some a1 =>
    let res := shiftLoop pos segs'.head_position segs'.segments
    if res.2.2 then some (segs', a1, res.1)
    else
      match a1.unset res.2.1.x res.2.1.y with
      | none => none
      | some ra => some (segs', ra.2, res.1)

/-- The per-snake, per-firing body of `move_snakes` (the whole
`if let Some(next_position) = ai.path.pop_front()` block; an empty route is
a no-op).  A berry or rat at the destination is unset, despawned and
scored, then the body shifts; a mongoose or another snake blocks and the
route is cleared.  `grow_events` records the `GrowEvent`s sent during the
step: the source never sends any, so it is always `[]`. -/
structure SnakeStep where
  ai : AI
  segs : Segmented
  sb : Scoreboard
  arena : Arena
  pos : Nat → Position
  despawned : List Nat
  grow_events : List Nat

def move_snake_step (snake : Nat) (ai : AI) (segs : Segmented) (sb : Scoreboard)
    (a : Arena) (pos : Nat → Position) : Option SnakeStep :=
  match ai.path with
  | [] => some ⟨ai, segs, sb, a, pos, [], []⟩
  | next_position :: rest =>
    let ai' : AI := { ai with path := rest }
    match a.occAt next_position.x next_position.y with
    | none =>
      match move_snake_segments snake next_position segs a pos with
      | none => none
      | some r => some ⟨ai', r.1, sb, r.2.1, r.2.2, [], []⟩
    | some (Occupancy.Berry berry) =>
      match a.unset next_position.x next_position.y with
      | none => none
      | some ra =>
        match move_snake_segments snake next_position segs ra.2 pos with
        | none => none
        | some r =>
          some ⟨ai', r.1,
            { sb with berries_eaten_by_snakes := sb.berries_eaten_by_snakes + 1 },
            r.2.1, r.2.2, [berry], []⟩
    | some (Occupancy.Rat rat) =>
      match a.unset next_position.x next_position.y with
      | none => none
      | some ra =>
        match move_snake_segments snake next_position segs ra.2 pos with
        | none => none
        | some r =>
          some ⟨ai', r.1,
            { sb with rats_eaten_by_snakes := sb.rats_eaten_by_snakes + 1 },
            r.2.1, r.2.2, [rat], []⟩
    | some (Occupancy.Mongoose _) => some ⟨ai'.clear, segs, sb, a, pos, [], []⟩
    | some (Occupancy.Snake _) => some ⟨ai'.clear, segs, sb, a, pos, [], []⟩

/-- `grow_snakes`: for each `GrowEvent` naming this snake, read the tail
segment's position and append a fresh segment entity carrying that same
position (the duplicate the next body shift resolves).  An event for an
unknown snake panics.  No system in the source ever sends a `GrowEvent`,
so in the running program the event list is always empty. -/
def grow_snakes (events : List Nat) (snake : Nat) (segs : Segmented)
    (pos : Nat → Position) (fresh : Nat) :
    Option (Segmented × (Nat → Position) × Nat) :=
  match events with
  | [] => some (segs, pos, fresh)
  | e :: rest =>
    if e = snake then
      match segs.segments.getLast? with
      | none => none
      | some tl =>
        grow_snakes rest snake
          { segs with segments := segs.segments ++ [fresh] }
          (fun n => if n = fresh then pos tl else pos n) (fresh + 1)
    else none

lemma map_upd_of_not_mem {pos : Nat → Position} {gap : Position} {s : Nat}
    {rest : List Nat} (h : s ∉ rest) :
    rest.map (fun x => if x = s then gap else pos x) = rest.map pos := by
  apply List.map_congr_left
  intro x hx
  have hxs : x ≠ s := fun hxe => h (hxe ▸ hx)
  simp [hxs]

lemma shiftLoop_not_mem {e : Nat} :
    ∀ (ss : List Nat) (pos : Nat → Position) (gap : Position), e ∉ ss →
      (shiftLoop pos gap ss).1 e = pos e := by
  intro ss
  induction ss with
  | nil => intro pos gap _; rfl
  | cons s rest ih =>
      intro pos gap he
      rw [List.mem_cons, not_or] at he
      show (shiftLoop (fun x => if x = s then gap else pos x) (pos s) rest).1 e = pos e
      rw [ih _ _ he.2]
      simp [he.1]

lemma shiftLoop_head (ss : List Nat) (pos : Nat → Position) (gap : Position)
    (s0 : Nat) (rest : List Nat) (hss : ss = s0 :: rest) (hnd : ss.Nodup) :
    (shiftLoop pos gap ss).1 s0 = gap := by
  subst hss
  show (shiftLoop (fun x => if x = s0 then gap else pos x) (pos s0) rest).1 s0 = gap
  rw [shiftLoop_not_mem rest _ _ (List.nodup_cons.mp hnd).1]
  simp

lemma shiftLoop_shift :
    ∀ (ss : List Nat) (pos : Nat → Position) (gap : Position), ss.Nodup →
      ∀ i (hi : i + 1 < ss.length),
        (shiftLoop pos gap ss).1 (ss.get ⟨i + 1, hi⟩) =
          pos (ss.get ⟨i, by omega⟩) := by
  intro ss
  induction ss with
  | nil => intro pos gap _ i hi; simp at hi
  | cons s rest ih =>
      intro pos gap hnd i hi
      show (shiftLoop (fun x => if x = s then gap else pos x) (pos s) rest).1
          ((s :: rest).get ⟨i + 1, hi⟩) = _
      cases i with
      | zero =>
          cases rest with
          | nil => simp at hi
          | cons r1 rr =>
              have hh := shiftLoop_head (r1 :: rr) (fun x => if x = s then gap else pos x)
                (pos s) r1 rr rfl (List.nodup_cons.mp hnd).2
              simpa using hh
      | succ j =>
          have hj : j + 1 < rest.length := by
            simp only [List.length_cons] at hi
            omega
          have hstep := ih (fun x => if x = s then gap else pos x) (pos s)
            (List.nodup_cons.mp hnd).2 j hj
          have hne : rest.get ⟨j, by omega⟩ ≠ s := by
            intro hx
            exact (List.nodup_cons.mp hnd).1 (hx ▸ List.get_mem rest _ _)
          rw [show ((s :: rest).get ⟨j + 1 + 1, hi⟩) = rest.get ⟨j + 1, hj⟩ from rfl]
          rw [hstep]
          simp only [hne, if_false]
          rfl

lemma shiftLoop_gap :
    ∀ (ss : List Nat) (pos : Nat → Position) (gap : Position), ss.Nodup →
      (shiftLoop pos gap ss).2.1 = ((ss.map pos).getLast?).getD gap := by
  intro ss
  induction ss with
  | nil => intro pos gap _; rfl
  | cons s rest ih =>
      intro pos gap hnd
      show (shiftLoop (fun x => if x = s then gap else pos x) (pos s) rest).2.1 = _
      rw [ih _ _ (List.nodup_cons.mp hnd).2,
        map_upd_of_not_mem (List.nodup_cons.mp hnd).1, List.map_cons]
      cases hrp : rest.map pos with
      | nil => simp
      | cons rp0 rps =>
          rw [List.getLast?_cons_cons]
          cases hz : (rp0 :: rps).getLast? with
          | none => exact absurd hz (by simp)
          | some z => rfl

lemma shiftLoop_grown :
    ∀ (ss : List Nat) (pos : Nat → Position) (gap : Position), ss.Nodup →
      List.Chain' (fun u v : Position => u ≠ v) (gap :: ss.map pos) →
      (shiftLoop pos gap ss).2.2 = false := by
  intro ss
  induction ss with
  | nil => intro pos gap _ _; rfl
  | cons s rest ih =>
      intro pos gap hnd hch
      rw [List.map_cons, List.chain'_cons] at hch
      show ((decide (gap = pos s)) ||
        (shiftLoop (fun x => if x = s then gap else pos x) (pos s) rest).2.2) = false
      rw [ih _ _ (List.nodup_cons.mp hnd).2 (by
        rw [map_upd_of_not_mem (List.nodup_cons.mp hnd).1]
        exact hch.2)]
      simp [hch.1]

lemma unset_occupied_eq {b : Arena} {x y : Int} {o : Occupancy}
    (hno : ¬ oob x y) (hocc : b.occ (x, y) = some o) :
    b.unset x y = some (some o,
      Arena.add_edges_with { b with occ := updOcc b.occ (x, y) none } x y) := by
  unfold Arena.unset
  rw [if_neg hno, hocc]

/-- Claim C9: an ordinary body shift into an empty in-arena cell.  The head
takes the destination cell, which becomes occupied by the snake; each
trailing segment takes the position previously held by the segment ahead of
it; the former tail cell is freed; every other cell is untouched; and the
segment list — hence the segment count — is unchanged (the returned
`Segmented` differs only in `head_position`). -/
theorem move_snake_segments_shift (snake : Nat) (np : Position) (segs : Segmented)
    (a : Arena) (pos : Nat → Position) (s0 : Nat) (rest : List Nat) (tl : Position)
    (hss : segs.segments = s0 :: rest)
    (hnd : (s0 :: rest).Nodup)
    (hch : List.Chain' (fun u v : Position => u ≠ v) (np :: (s0 :: rest).map pos))
    (hnb : inB (np.x, np.y))
    (hnf : a.occ (np.x, np.y) = none)
    (htl : ((s0 :: rest).map pos).getLast? = some tl)
    (htb : inB (tl.x, tl.y))
    (hto : a.occ (tl.x, tl.y) ≠ none) :
    ∃ a' pos',
      move_snake_segments snake np segs a pos =
        some ({ segs with head_position := np }, a', pos') ∧
      pos' s0 = np ∧
      (∀ i (hi : i + 1 < (s0 :: rest).length),
        pos' ((s0 :: rest).get ⟨i + 1, hi⟩) = pos ((s0 :: rest).get ⟨i, by omega⟩)) ∧
      (∀ e, e ∉ s0 :: rest → pos' e = pos e) ∧
      a'.occ (tl.x, tl.y) = none ∧
      a'.occ (np.x, np.y) = some (Occupancy.Snake snake) ∧
      (∀ c : Cell, c ≠ (np.x, np.y) → c ≠ (tl.x, tl.y) → a'.occ c = a.occ c) := by
  obtain ⟨hp0, ss0⟩ := segs
  simp only at hss
  subst hss
  have hnpo : ¬ oob np.x np.y := not_oob_iff.mpr hnb
  have htlo : ¬ oob tl.x tl.y := not_oob_iff.mpr htb
  have htlne : ((tl.x, tl.y) : Cell) ≠ (np.x, np.y) := fun hc =>
    hto (by rw [hc]; exact hnf)
  unfold move_snake_segments
  dsimp only
  rw [set_free_eq hnpo hnf]
  dsimp only
  rw [shiftLoop_grown _ _ _ hnd hch]
  rw [if_neg (by simp : ¬ (false : Bool) = true)]
  rw [show (shiftLoop pos np (s0 :: rest)).2.1 = tl from by
    rw [shiftLoop_gap _ _ _ hnd, htl]; rfl]
  obtain ⟨ot, hot⟩ := Option.ne_none_iff_exists'.mp hto
  rw [unset_occupied_eq htlo (show
    (Arena.remove_edges_with
      { a with occ := updOcc a.occ (np.x, np.y) (some (Occupancy.Snake snake)) }
      np.x np.y).occ (tl.x, tl.y) = some ot from by
    show updOcc a.occ (np.x, np.y) (some (Occupancy.Snake snake)) (tl.x, tl.y) = some ot
    rw [updOcc_ne htlne]
    exact hot)]
  dsimp only
  refine ⟨_, _, rfl, ?_, ?_, ?_, ?_, ?_, ?_⟩
  · exact shiftLoop_head _ pos np s0 rest rfl hnd
  · exact shiftLoop_shift _ pos np hnd
  · intro e he
    exact shiftLoop_not_mem _ pos np he
  · exact updOcc_self
  · show updOcc _ (tl.x, tl.y) none (np.x, np.y) = some (Occupancy.Snake snake)
    rw [updOcc_ne (fun hc => htlne hc.symm)]
    show updOcc a.occ (np.x, np.y) (some (Occupancy.Snake snake)) (np.x, np.y) = _
    exact updOcc_self
  · intro c hc1 hc2
    show updOcc _ (tl.x, tl.y) none c = a.occ c
    rw [updOcc_ne hc2]
    show updOcc a.occ (np.x, np.y) (some (Occupancy.Snake snake)) c = a.occ c
    rw [updOcc_ne hc1]

def c9Arena : Arena := (setList Arena.new
  [((5, 5), Occupancy.Snake 0), ((5, 4), Occupancy.Snake 1),
   ((5, 3), Occupancy.Snake 2)]).getD Arena.new

def c9pos : Nat → Position := fun e =>
  if e = 0 then ⟨5, 5⟩ else if e = 1 then ⟨5, 4⟩ else if e = 2 then ⟨5, 3⟩ else ⟨0, 0⟩

/-- Witness for C9: the 3-segment body at `[(5,5),(5,4),(5,3)]` moves its
head to the empty cell `(5,6)`: new positions `[(5,6),(5,5),(5,4)]`,
`(5,3)` freed, `(5,6)` occupied, segment list unchanged. -/
theorem move_snake_segments_shift_w :
    ∃ a' pos',
      move_snake_segments 0 ⟨5, 6⟩ ⟨⟨5, 5⟩, [0, 1, 2]⟩ c9Arena c9pos =
        some (⟨⟨5, 6⟩, [0, 1, 2]⟩, a', pos') ∧
      pos' 0 = ⟨5, 6⟩ ∧
      (∀ i (hi : i + 1 < ([0, 1, 2] : List Nat).length),
        pos' (([0, 1, 2] : List Nat).get ⟨i + 1, hi⟩) =
          c9pos (([0, 1, 2] : List Nat).get ⟨i, by omega⟩)) ∧
      (∀ e, e ∉ ([0, 1, 2] : List Nat) → pos' e = c9pos e) ∧
      a'.occ (5, 3) = none ∧
      a'.occ (5, 6) = some (Occupancy.Snake 0) ∧
      (∀ c : Cell, c ≠ (5, 6) → c ≠ (5, 3) → a'.occ c = c9Arena.occ c) :=
  move_snake_segments_shift 0 ⟨5, 6⟩ ⟨⟨5, 5⟩, [0, 1, 2]⟩ c9Arena c9pos 0 [1, 2] ⟨5, 3⟩
    rfl (by decide)
    (by
      show List.Chain' (fun u v : Position => u ≠ v)
        [⟨5, 6⟩, ⟨5, 5⟩, ⟨5, 4⟩, ⟨5, 3⟩]
      refine List.chain'_cons.mpr ⟨by decide, List.chain'_cons.mpr ⟨by decide,
        List.chain'_cons.mpr ⟨by decide, List.chain'_singleton _⟩⟩⟩)
    (by decide) (by decide) (by decide) (by decide) (by decide)

def c3Arena : Arena := (setList Arena.new
  [((5, 5), Occupancy.Snake 0), ((5, 4), Occupancy.Snake 1),
   ((5, 3), Occupancy.Snake 2), ((5, 6), Occupancy.Berry 7)]).getD Arena.new

def c3ai : AI := { path := [⟨5, 6⟩, ⟨5, 7⟩], target := none }

def c3segs : Segmented := { head_position := ⟨5, 5⟩, segments := [0, 1, 2] }

def snakeStepDflt : SnakeStep := ⟨c3ai, c3segs, emptyScoreboard, Arena.new, c9pos, [], []⟩

def c3step1 : SnakeStep :=
  (move_snake_step 0 c3ai c3segs emptyScoreboard c3Arena c9pos).getD snakeStepDflt

def c3step2 : SnakeStep :=
  (move_snake_step 0 c3step1.ai c3step1.segs c3step1.sb c3step1.arena c3step1.pos).getD
    snakeStepDflt

/-- Claim C3 (code bug, evaluated at the failing input): a 3-segment snake
whose next waypoint `(5,6)` holds a berry.  The movement step removes the
berry occupant (despawning entity 7; the cell then holds the snake's head)
and increments `berries_eaten_by_snakes`, but it emits no grow request —
nothing in the source ever sends a `GrowEvent` — so `grow_snakes` leaves
the body alone and after the following movement tick the segment count is
still 3, not 4 as the claim requires. -/
theorem snake_eats_but_never_grows :
    move_snake_step 0 c3ai c3segs emptyScoreboard c3Arena c9pos = some c3step1 ∧
    c3step1.sb.berries_eaten_by_snakes = emptyScoreboard.berries_eaten_by_snakes + 1 ∧
    c3step1.despawned = [7] ∧
    c3step1.arena.occ (5, 6) = some (Occupancy.Snake 0) ∧
    c3step1.grow_events = [] ∧
    c3step1.segs.segments.length = 3 ∧
    grow_snakes c3step1.grow_events 0 c3step1.segs c3step1.pos 100 =
      some (c3step1.segs, c3step1.pos, 100) ∧
    move_snake_step 0 c3step1.ai c3step1.segs c3step1.sb c3step1.arena c3step1.pos =
      some c3step2 ∧
    c3step2.segs.segments.length = 3 ∧
    ¬ c3step2.segs.segments.length = 4 :=
  ⟨rfl, by decide, by decide, by decide, by decide, by decide, rfl, rfl, by decide,
    by decide⟩

/-! ### Target selection -/

def RAT_BERRY_PREFERENCE : Nat := 4
def RAT_WANDER_PREFERENCE : Nat := 3
def SNAKE_RAT_PREFERENCE : Nat := 5
def SNAKE_BERRY_PREFERENCE : Nat := 2
def SNAKE_WANDER_PREFERENCE : Nat := 2

/-- `choose_random_entity`: keep the live entities whose coordinate-sum
proxy `|position.x + position.y - p.x - p.y| <= MAX_PATH_LENGTH` holds
(the absolute value of the sum of the signed differences — not Manhattan
distance), then pick one of the qualifying entries uniformly;
`IteratorRandom::choose` is modelled by the arbitrary pick index `r`. -/
def choose_random_entity (entities : List (Nat × Position)) (position : Position)
    (r : Nat) : Option Target :=
  let candidates := entities.filter fun ep =>
    decide ((position.x + position.y - ep.2.x - ep.2.y).natAbs ≤ MAX_PATH_LENGTH)
  match candidates[r % candidates.length]? with
  | none => none
  | some ep => some (Target.Entity ep.1)

/-- The clamped bounding box `choose_random_unocc` draws from:
`[max 0 (x-L/2), min (W-1) (x+L/2)] x [max 0 (y-L/2), min (H-1) (y+L/2)]`
with `L/2 = MAX_PATH_LENGTH/2 = 4`. -/
def wanderBox (position : Position) : Int × Int × Int × Int :=
  (max 0 (position.x - (MAX_PATH_LENGTH : Int) / 2),
   max 0 (position.y - (MAX_PATH_LENGTH : Int) / 2),
   min (ARENA_WIDTH - 1) (position.x + (MAX_PATH_LENGTH : Int) / 2),
   min (ARENA_HEIGHT - 1) (position.y + (MAX_PATH_LENGTH : Int) / 2))

/-- The retry loop of `choose_random_unocc`.  In the source `attempts`
starts at 10 and after a failed draw it is incremented and compared with
`attempts >= 10`, so the very first occupied draw already returns `None`.
`draws` models the stream of `gen_range` samples from the clamped box. -/
def unoccLoop (a : Arena) : Nat → List (Int × Int) → Option (Int × Int)
  | _, [] => none
  | attempts, (x, y) :: rest =>
    if a.isset x y = false then some (x, y)
    else if attempts + 1 ≥ 10 then none
    else unoccLoop a (attempts + 1) rest

def choose_random_unocc (draws : List (Int × Int)) (position : Position)
    (a : Arena) : Option Target :=
  match unoccLoop a 10 draws with
  | none => none
  | some (x, y) => some (Target.Position ⟨x, y⟩)

/-- Claim C4 (code bug, evaluated at the failing input): around `(5,5)` the
clamped box is `[1,9] x [1,9]`; the draw stream first hits the occupied cell
`(5,5)` and then the free in-box cell `(5,6)` — within any 10-attempt
budget — yet the function returns `none`, because `attempts` starts at its
own limit 10 and the first failed draw aborts.  A free first draw is
returned as the claim describes. -/
theorem choose_random_unocc_gives_up_after_one_failure :
    wanderBox ⟨5, 5⟩ = (1, 1, 9, 9) ∧
    aBerry.isset 5 5 = true ∧
    aBerry.isset 5 6 = false ∧
    choose_random_unocc [(5, 5), (5, 6)] ⟨5, 5⟩ aBerry = none ∧
    choose_random_unocc [(5, 6)] ⟨5, 5⟩ aBerry = some (Target.Position ⟨5, 6⟩) :=
  ⟨by decide, by decide, by decide, by decide, by decide⟩

/-- Modelled from the spec's words, for comparison only: the candidate set
claim C5 asserts, filtered by true Manhattan distance `|dx| + |dy| <= L`. -/
def manhattanCandidates (entities : List (Nat × Position)) (position : Position) :
    List (Nat × Position) :=
  entities.filter fun ep =>
    decide ((position.x - ep.2.x).natAbs + (position.y - ep.2.y).natAbs ≤ MAX_PATH_LENGTH)

/-- Claim C5, counterexample: from `(10,10)` the entity at `(15,5)` has
coordinate-sum proxy `|10 + 10 - 15 - 5| = 0 <= 8`, so the code selects it,
although its Manhattan distance is `10 > 8`: under the claim's
`|dx| + |dy|` filter no entity qualifies and the result would have to be
`none`. -/
theorem choose_random_entity_not_manhattan :
    choose_random_entity [(3, ⟨15, 5⟩)] ⟨10, 10⟩ 0 = some (Target.Entity 3) ∧
    manhattanCandidates [(3, ⟨15, 5⟩)] ⟨10, 10⟩ = [] :=
  ⟨by decide, by decide⟩

/-- Claim C5 (amended): entity-chase resolution restricts the candidates to
exactly the entities whose coordinate-sum proxy `|dx + dy|` (absolute value
of the sum of the signed differences, as implemented — not `|dx| + |dy|`)
is at most `MAX_PATH_LENGTH`, returns `none` exactly when no entity
qualifies, only ever returns entity targets drawn from the candidate set,
and every candidate is picked for some value of the rng. -/
theorem choose_random_entity_spec (es : List (Nat × Position)) (pos : Position)
    (r : Nat) :
    (choose_random_entity es pos r = none ↔
      es.filter (fun ep =>
        decide ((pos.x + pos.y - ep.2.x - ep.2.y).natAbs ≤ MAX_PATH_LENGTH)) = []) ∧
    (∀ e : Nat, choose_random_entity es pos r = some (Target.Entity e) →
      ∃ q : Position, (e, q) ∈ es ∧
        (pos.x + pos.y - q.x - q.y).natAbs ≤ MAX_PATH_LENGTH) ∧
    (∀ i (hi : i < (es.filter (fun ep =>
        decide ((pos.x + pos.y - ep.2.x - ep.2.y).natAbs ≤ MAX_PATH_LENGTH))).length),
      choose_random_entity es pos i =
        some (Target.Entity ((es.filter (fun ep =>
          decide ((pos.x + pos.y - ep.2.x - ep.2.y).natAbs ≤ MAX_PATH_LENGTH)))[i].1))) := by
  refine ⟨?_, ?_, ?_⟩
  · unfold choose_random_entity
    cases hc : es.filter (fun ep =>
        decide ((pos.x + pos.y - ep.2.x - ep.2.y).natAbs ≤ MAX_PATH_LENGTH)) with
    | nil => simp
    | cons c cs =>
        have hlt : r % (c :: cs).length < (c :: cs).length :=
          Nat.mod_lt _ (by simp)
        dsimp only
        rw [List.getElem?_eq_getElem hlt]
        simp
  · intro e he
    unfold choose_random_entity at he
    dsimp only at he
    cases hg : (es.filter (fun ep =>
        decide ((pos.x + pos.y - ep.2.x - ep.2.y).natAbs ≤ MAX_PATH_LENGTH)))[r %
          (es.filter (fun ep =>
            decide ((pos.x + pos.y - ep.2.x - ep.2.y).natAbs ≤ MAX_PATH_LENGTH))).length]?
        with
    | none => rw [hg] at he; cases he
    | some ep =>
        rw [hg] at he
        simp only [Option.some.injEq, Target.Entity.injEq] at he
        subst he
        have hmem : ep ∈ es.filter (fun ep =>
            decide ((pos.x + pos.y - ep.2.x - ep.2.y).natAbs ≤ MAX_PATH_LENGTH)) := by
          obtain ⟨h2, hget⟩ := List.getElem?_eq_some.mp hg
          exact hget ▸ List.getElem_mem h2
        have hm2 := List.mem_filter.mp hmem
        refine ⟨ep.2, ?_, by simpa using hm2.2⟩
        have : (ep.1, ep.2) = ep := rfl
        rw [this]
        exact hm2.1
  · intro i hi
    unfold choose_random_entity
    dsimp only
    rw [Nat.mod_eq_of_lt hi, List.getElem?_eq_getElem hi]

/-- Witness for the amended C5 at a single far-but-aligned entity. -/
theorem choose_random_entity_spec_w :
    (choose_random_entity [(3, ⟨15, 5⟩)] ⟨10, 10⟩ 0 = none ↔
      ([(3, (⟨15, 5⟩ : Position))]).filter (fun ep =>
        decide (((10 : Int) + 10 - ep.2.x - ep.2.y).natAbs ≤ MAX_PATH_LENGTH)) = []) ∧
    (∀ e : Nat, choose_random_entity [(3, ⟨15, 5⟩)] ⟨10, 10⟩ 0 = some (Target.Entity e) →
      ∃ q : Position, (e, q) ∈ [(3, (⟨15, 5⟩ : Position))] ∧
        ((10 : Int) + 10 - q.x - q.y).natAbs ≤ MAX_PATH_LENGTH) ∧
    (∀ i (hi : i < (([(3, (⟨15, 5⟩ : Position))]).filter (fun ep =>
        decide (((10 : Int) + 10 - ep.2.x - ep.2.y).natAbs ≤ MAX_PATH_LENGTH))).length),
      choose_random_entity [(3, ⟨15, 5⟩)] ⟨10, 10⟩ i =
        some (Target.Entity ((([(3, (⟨15, 5⟩ : Position))]).filter (fun ep =>
          decide (((10 : Int) + 10 - ep.2.x - ep.2.y).natAbs ≤ MAX_PATH_LENGTH)))[i].1))) :=
  choose_random_entity_spec [(3, ⟨15, 5⟩)] ⟨10, 10⟩ 0

/-- The roll dispatch of `plan_snakes` (`roll = rng.gen_range(0..10)`):
`roll <= 5` chases a rat, `roll <= 2 + 5` a berry, `roll < 2 + 2 + 5`
wanders, else no target. -/
def snake_roll_target (roll : Nat) (rats berries : List (Nat × Position))
    (head : Position) (r : Nat) (draws : List (Int × Int)) (a : Arena) :
    Option Target :=
  if roll ≤ SNAKE_RAT_PREFERENCE then choose_random_entity rats head r
  else if roll ≤ SNAKE_BERRY_PREFERENCE + SNAKE_RAT_PREFERENCE then
    choose_random_entity berries head r
  else if roll < SNAKE_WANDER_PREFERENCE + SNAKE_BERRY_PREFERENCE + SNAKE_RAT_PREFERENCE
    then choose_random_unocc draws head a
  else none

/-- The per-snake planning-cycle body of `plan_snakes` after the roll
resolved to `tgt` (a cycle with a non-empty route is skipped): the target
is stored, and only a `Target::Position` target leads to a `plan_path`
call — any other outcome, including a committed entity target, immediately
clears route and target. -/
def plan_snake_cycle (ai : AI) (segs : Segmented) (tgt : Option Target) (a : Arena) :
    Option (AI × Arena) :=
  if ai.path.length > 0 then some (ai, a)
  else
    let ai1 := { ai with target := tgt }
    match tgt with
    | some (Target.Position goal) => ai1.plan_path segs.head_position goal a
    | _ => some (ai1.clear, a)

lemma choose_random_entity_ne_position (es : List (Nat × Position))
    (pos : Position) (r : Nat) (p : Position) :
    choose_random_entity es pos r ≠ some (Target.Position p) := by
  unfold choose_random_entity
  dsimp only
  cases (es.filter (fun ep =>
      decide ((pos.x + pos.y - ep.2.x - ep.2.y).natAbs ≤ MAX_PATH_LENGTH)))[r %
        (es.filter (fun ep =>
          decide ((pos.x + pos.y - ep.2.x - ep.2.y).natAbs ≤ MAX_PATH_LENGTH))).length]?
      with
  | none => simp
  | some ep => simp

/-- Claim C10: whenever the planning roll of a snake commits an entity
target (a rat or a berry), the planning cycle never runs `plan_path`: route
and target are cleared in that same cycle and the arena is untouched.  A
snake's cycle can only end with a non-empty route when the resolved target
was a fixed `Target::Position`, and the two entity-chase branches of the
roll can never produce a `Target::Position`. -/
theorem snake_entity_target_cleared (ai : AI) (segs : Segmented) (a : Arena)
    (roll r : Nat) (rats berries : List (Nat × Position)) (draws : List (Int × Int))
    (hemp : ai.path = []) :
    (∀ e : Nat,
      snake_roll_target roll rats berries segs.head_position r draws a
          = some (Target.Entity e) →
      plan_snake_cycle ai segs (some (Target.Entity e)) a =
        some ({ path := [], target := none }, a)) ∧
    (∀ tgt ai' a', plan_snake_cycle ai segs tgt a = some (ai', a') →
      ai'.path ≠ [] → ∃ goal : Position, tgt = some (Target.Position goal)) ∧
    (∀ p : Position, roll ≤ SNAKE_BERRY_PREFERENCE + SNAKE_RAT_PREFERENCE →
      snake_roll_target roll rats berries segs.head_position r draws a
        ≠ some (Target.Position p)) := by
  refine ⟨?_, ?_, ?_⟩
  · rintro e -
    unfold plan_snake_cycle
    rw [if_neg (by simp [hemp])]
    rfl
  · intro tgt ai' a' h hne
    unfold plan_snake_cycle at h
    rw [if_neg (by simp [hemp])] at h
    dsimp only at h
    match tgt, h with
    | some (Target.Position goal), h => exact ⟨goal, rfl⟩
    | some (Target.Entity e), h => ?_
    | none, h => ?_
    all_goals
      simp only [Option.some.injEq, Prod.mk.injEq] at h
      obtain ⟨rfl, rfl⟩ := h
      exact absurd rfl hne
  · intro p hroll
    unfold snake_roll_target
    by_cases h1 : roll ≤ SNAKE_RAT_PREFERENCE
    · rw [if_pos h1]
      exact choose_random_entity_ne_position rats segs.head_position r p
    · rw [if_neg h1, if_pos hroll]
      exact choose_random_entity_ne_position berries segs.head_position r p

/-- Witness for C10 at a concrete configuration: an idle snake, one rat in
range, an entity-target roll. -/
theorem snake_entity_target_cleared_w :
    (∀ e : Nat,
      snake_roll_target 3 [(3, ⟨5, 6⟩)] [] c3segs.head_position 0 [] Arena.new
          = some (Target.Entity e) →
      plan_snake_cycle aiEmpty c3segs (some (Target.Entity e)) Arena.new =
        some ({ path := [], target := none }, Arena.new)) ∧
    (∀ tgt ai' a', plan_snake_cycle aiEmpty c3segs tgt Arena.new = some (ai', a') →
      ai'.path ≠ [] → ∃ goal : Position, tgt = some (Target.Position goal)) ∧
    (∀ p : Position, 3 ≤ SNAKE_BERRY_PREFERENCE + SNAKE_RAT_PREFERENCE →
      snake_roll_target 3 [(3, ⟨5, 6⟩)] [] c3segs.head_position 0 [] Arena.new
        ≠ some (Target.Position p)) :=
  snake_entity_target_cleared aiEmpty c3segs Arena.new 3 0 [(3, ⟨5, 6⟩)] [] [] rfl

end Mongoose
